import Mathlib

/-! Shallow embedding of the drop command of this repository
(src/datalad/distribution/drop.py) together with the external collaborators
it consumes, and a verification of the specification claims against it. -/

set_option autoImplicit false

namespace DataladDrop

/-- Canonical result statuses of a status record (spec section 3). -/
inductive Status where
  | ok
  | notneeded
  | impossible
  | error
  deriving DecidableEq

/-- A result record, the dict built by get_status_dict: action, status,
path, message and an optional type tag. -/
structure StatusRecord where
  action : String
  status : Status
  path : String
  message : String
  type : Option String
  deriving DecidableEq

/-- os.path.isabs for slash-separated paths: the path begins with a
slash. -/
def isabs (p : String) : Bool := p.data.take 1 == "/".data

/-- os.path.join; normpath is modelled as the identity (inputs are assumed
free of dot segments and duplicate separators). -/
def opj (a b : String) : String := a ++ "/" ++ b

/-- The path normalisation used in drop.py line 85:
p if isabs(p) else normpath(opj(ds.path, p)). -/
def absPath (ds p : String) : String := if isabs p then p else opj ds p

/-- Modelled from the spec: a raw per-path outcome record of the content
store (RawOutcome, spec section 6): it names a file and a success flag.
The store implementation itself is out of scope (section 1). -/
structure AnnexResult where
  success : Bool
  file : String
  deriving DecidableEq

/-- The world a drop invocation runs against: the filesystem predicates,
the dataset ownership map, dataset dirtiness, and per-dataset store
capability and store behaviour.  All collaborators of drop.py that touch
the outside world are collected here so that the embedded code stays a
pure function of this environment. -/
structure Env where
  pathExists : String → Bool
  isdir : String → Bool
  dsOf : String → String
  dirty : String → Bool
  hasDrop : String → Bool
  repoDrop : String → List String → List String → List AnnexResult

/-- The dirty-policy enum of the if_dirty option. -/
inductive DirtyPolicy where
  | saveBefore
  | ignore
  | fail
  deriving DecidableEq

/-- One invocation of a content store's drop operation: which dataset,
which paths, which options. -/
structure StoreCall where
  ds : String
  paths : List String
  opts : List String
  deriving DecidableEq

/-- Observable events of a run: an emitted status record, the single
cleanliness-guard invocation, or a store invocation. -/
inductive Event where
  | result (r : StatusRecord)
  | guard (dss : List String) (mode : DirtyPolicy)
  | store (c : StoreCall)
  deriving DecidableEq

/-- Project an event to the status record it emits, if any. -/
def Event.recOf : Event → Option StatusRecord
  | .result r => some r
  | _ => none

/-- Project an event to the store call it makes, if any. -/
def Event.storeOf : Event → Option StoreCall
  | .store c => some c
  | _ => none

/-- Recognise the cleanliness-guard event. -/
def Event.isGuard : Event → Bool
  | .guard _ _ => true
  | _ => false

/-- Recognise a store invocation event. -/
def Event.isStore : Event → Bool
  | .store _ => true
  | _ => false

/-- Recognise an unavailable-path record: a record whose message is
exactly the path-does-not-exist message for its own path. -/
def Event.isUnavail : Event → Bool
  | .result r => r.message == "path does not exist: " ++ r.path
  | _ => false

/-- The paths argument of _drop_files: a single path or a list of paths
(drop.py line 65: path or list(path)). -/
inductive PathArg where
  | one (p : String)
  | many (ps : List String)

/-- Modelled from the spec: assure_list from datalad.utils — coerce the
argument to a list, as required by the call-site comment in drop.py
lines 78-79 (always need to make sure that we pass a list). -/
def assure_list : PathArg → List String
  | .one p => [p]
  | .many ps => ps

/-- Modelled from the spec: annexjson2result from datalad.interface.results
(spec section 4.3) — translate a raw store outcome into a StatusRecord,
always with type file, mapping store success to ok and store failure to
error, with the path normalised against the dataset root. -/
def annexjson2result (act ds : String) (r : AnnexResult) : StatusRecord :=
  { action := act
    status := if r.success then Status.ok else Status.error
    path := absPath ds r.file
    message := ""
    type := some "file" }

/-- Modelled from the spec: success_status_map from
datalad.interface.results — ok and notneeded count as success, impossible
and error as failure (spec sections 4.3 and 7). -/
def success_status_map : Status → Bool
  | .ok => true
  | .notneeded => true
  | .impossible => false
  | .error => false

/-- Whether path f lies strictly below directory d: f begins with d
followed by a slash. -/
def path_startswith (f d : String) : Bool :=
  f.data.take (d ++ "/").data.length == (d ++ "/").data

/-- The dir_fail_msg format string of drop.py line 103, applied:
could not drop some content in dataset-path path. -/
def dir_fail_msg (ds p : String) : String :=
  "could not drop some content in " ++ (ds ++ (" " ++ p))

/-- The noinfo_dir_msg format string of drop.py line 104, applied. -/
def noinfo_dir_msg (p : String) : String := "nothing to drop from " ++ p

/-- The noinfo_file_msg string of drop.py line 105. -/
def noinfo_file_msg : String := "no annex'ed content"

/-- One step of the reconciliation: the record (when any) synthesised for
one requested path given the two reported buckets. -/
def noinfo_one (env : Env) (act ds : String)
    (success_paths failure_paths : List String) (p0 : String) :
    Option StatusRecord :=
  if success_paths.contains (absPath ds p0)
      || failure_paths.contains (absPath ds p0) then
    none
  else if env.isdir (absPath ds p0) then
    if failure_paths.any (fun fp => path_startswith fp (absPath ds p0)) then
      some ⟨act, Status.impossible, absPath ds p0,
        dir_fail_msg ds (absPath ds p0), some "directory"⟩
    else
      some ⟨act, Status.notneeded, absPath ds p0,
        noinfo_dir_msg (absPath ds p0), some "directory"⟩
  else
    some ⟨act, Status.notneeded, absPath ds p0, noinfo_file_msg,
      some "file"⟩

/-- Modelled from the spec: results_from_annex_noinfo from
datalad.interface.results (spec section 4.4, Result Reconciler) — for
every requested path absent from every reported set, synthesise one
record; the branch structure follows the parameter names at the call
site in drop.py lines 101-106: dir_fail_msg for a directory with failed
paths below it (status impossible), noinfo_dir_msg for a silent
directory, noinfo_file_msg for a silent file (status notneeded). -/
def results_from_annex_noinfo (env : Env) (act ds : String)
    (paths success_paths failure_paths : List String) : List StatusRecord :=
  paths.filterMap (noinfo_one env act ds success_paths failure_paths)

/-- The options computed in drop.py line 90:
opts = ['--force'] if not check else []. -/
def drop_opts (check : Bool) : List String := if !check then ["--force"] else []

/-- The translated results of the store invocation in drop.py lines 92-95. -/
def store_results (env : Env) (act ds : String) (paths : List String)
    (check : Bool) : List StatusRecord :=
  (env.repoDrop ds paths (drop_opts check)).map (annexjson2result act ds)

/-- The success bucket of respath_by_status (drop.py lines 96-98). -/
def store_success_paths (env : Env) (act ds : String) (paths : List String)
    (check : Bool) : List String :=
  ((store_results env act ds paths check).filter
    (fun r => success_status_map r.status)).map StatusRecord.path

/-- The failure bucket of respath_by_status (drop.py lines 96-98). -/
def store_failure_paths (env : Env) (act ds : String) (paths : List String)
    (check : Bool) : List String :=
  ((store_results env act ds paths check).filter
    (fun r => !(success_status_map r.status))).map StatusRecord.path

/-- The drop executor _drop_files of drop.py lines 59-107, as a pure
event trace: coerce paths to a list; if the repository has no drop
capability emit one record per path (impossible when noannex_iserror,
notneeded otherwise, message noinfo_file_msg) and make no store call;
otherwise invoke the store once with the options of drop_opts, translate
its reports, and append the reconciliation records for the paths the
store stayed silent about. -/
def _drop_files (env : Env) (ds : String) (pathsArg : PathArg)
    (check noannex_iserror : Bool) (act : String) : List Event :=
  let paths := assure_list pathsArg
  if env.hasDrop ds then
    Event.store ⟨ds, paths, drop_opts check⟩ ::
      ((store_results env act ds paths check).map Event.result ++
        (results_from_annex_noinfo env act ds paths
          (store_success_paths env act ds paths check)
          (store_failure_paths env act ds paths check)).map Event.result)
  else
    paths.map fun p =>
      Event.result ⟨act,
        if noannex_iserror then Status.impossible else Status.notneeded,
        absPath ds p, noinfo_file_msg, none⟩

/-- Modelled from the spec: handle_dirty_datasets from
datalad.interface.utils (spec section 4.2, Cleanliness Guard) — under the
fail policy the operation aborts when any of the datasets is dirty;
save-before and ignore never abort (saving is not observable in this
model).  Returns true when the guard aborts. -/
def handle_dirty_datasets (env : Env) (dss : List String)
    (mode : DirtyPolicy) : Bool :=
  match mode with
  | .fail => dss.any env.dirty
  | _ => false

/-- Modelled from the spec: Interface._prep (spec section 4.1, Path
Grouper) — partition the requested paths into the ones that do not exist
on disk (UnavailablePaths) and a grouping of the existing ones by owning
dataset; every existing path lands in exactly one group.  Sub-dataset
recursion is not exercised by any claim and is not modelled. -/
def prep (env : Env) (paths : List String) :
    List String × List (String × List String) :=
  let available := paths.filter fun p => env.pathExists p
  (paths.filter fun p => !(env.pathExists p),
    (available.map env.dsOf).dedup.map fun d =>
      (d, available.filter fun p => env.dsOf p == d))

/-- The defaulting of drop.py lines 166-168: if a dataset is given and no
path, the dataset root becomes the sole requested path. -/
def effective_paths (dataset : Option String) (path : List String) :
    List String :=
  match dataset with
  | some d => if path.isEmpty then [d] else path
  | none => path

/-- Modelled from the spec: results_from_paths from
datalad.interface.results — one record per path, with the given status
and the message formatted with the path (drop.py lines 176-181). -/
def results_from_paths (act : String) (status : Status)
    (msg : String → String) (paths : List String) : List StatusRecord :=
  paths.map fun p => ⟨act, status, p, msg p, none⟩

/-- Concatenation of the event lists of all groups. -/
def concatMap {α β : Type} (f : α → List β) : List α → List β
  | [] => []
  | a :: l => f a ++ concatMap f l

/-- A completed run: its event trace and whether the cleanliness guard
aborted it. -/
structure Trace where
  events : List Event
  aborted : Bool
  deriving DecidableEq

/-- The orchestrator Drop.__call__ of drop.py lines 158-193: default the
path to the dataset root, group the request, emit one notneeded record
per unavailable path, run the cleanliness guard once over all grouped
dataset keys (aborting the rest of the run under the fail policy on a
dirty dataset), then run _drop_files over every group with
noannex_iserror left at its default False. -/
def Drop_call (env : Env) (path : List String) (dataset : Option String)
    (check : Bool) (if_dirty : DirtyPolicy) : Trace :=
  let paths := effective_paths dataset path
  let pr := prep env paths
  let unavailEvents :=
    (results_from_paths "drop" Status.notneeded
      (fun p => "path does not exist: " ++ p) pr.1).map Event.result
  let keys := pr.2.map Prod.fst
  if handle_dirty_datasets env keys if_dirty then
    ⟨unavailEvents ++ [Event.guard keys if_dirty], true⟩
  else
    ⟨unavailEvents ++ Event.guard keys if_dirty ::
      concatMap (fun g => _drop_files env g.1 (.many g.2) check false "drop")
        pr.2,
      false⟩

/-- The status records a trace emits, in order. -/
def Trace.records (t : Trace) : List StatusRecord :=
  t.events.filterMap Event.recOf

/-- How many records of the list report on a given path. -/
def pathCount (rs : List StatusRecord) (p : String) : Nat :=
  rs.countP fun r => r.path == p

/-- Sanity of the external content store: within one invocation it
reports each (normalised) path at most once, and it only reports paths
that exist and belong to the dataset it was invoked on. -/
def storeSane (env : Env) : Prop :=
  ∀ ds paths opts,
    ((env.repoDrop ds paths opts).map fun r => absPath ds r.file).Nodup ∧
    ∀ r ∈ env.repoDrop ds paths opts,
      env.pathExists (absPath ds r.file) = true ∧
      env.dsOf (absPath ds r.file) = ds

/-- Strings built by appending onto left parts that already differ within
their first n characters are different. -/
theorem append_prefix_ne (a b x y : String) (n : Nat)
    (hna : n ≤ a.data.length) (hnb : n ≤ b.data.length)
    (hne : a.data.take n ≠ b.data.take n) : a ++ x ≠ b ++ y := by
  intro h
  have hd : a.data ++ x.data = b.data ++ y.data := by
    have h2 := congrArg String.data h
    simpa [String.data_append] using h2
  have h3 : (a.data ++ x.data).take n = (b.data ++ y.data).take n := by
    rw [hd]
  rw [List.take_append_of_le_length hna, List.take_append_of_le_length hnb]
    at h3
  exact hne h3

/-- A string shorter than another string's left part differs from any
append extending that left part. -/
theorem ne_append_of_length_lt (c a x : String)
    (h : c.data.length < a.data.length) : c ≠ a ++ x := by
  intro he
  have h2 := congrArg (fun s => s.data.length) he
  simp only [String.data_append, List.length_append] at h2
  omega

/-- Counting with an equality test in a duplicate-free list that contains
the element gives one. -/
theorem countP_beq_eq_one_of_nodup_mem {l : List String} {a : String}
    (hn : l.Nodup) (ha : a ∈ l) : l.countP (fun x => x == a) = 1 := by
  induction l with
  | nil => cases ha
  | cons b t ih =>
    rw [List.countP_cons]
    rcases List.mem_cons.mp ha with h | h
    · subst h
      have h0 : t.countP (fun x => x == a) = 0 := by
        refine List.countP_eq_zero.mpr ?_
        intro x hx hxb
        exact (List.nodup_cons.mp hn).1 (beq_iff_eq.mp hxb ▸ hx)
      simp [h0]
    · have hba : ¬(b == a) = true := by
        intro hh
        exact (List.nodup_cons.mp hn).1 (beq_iff_eq.mp hh ▸ h)
      rw [ih (List.nodup_cons.mp hn).2 h]
      simp [hba]

/-- Counting with an equality test for an absent element gives zero. -/
theorem countP_beq_eq_zero_of_not_mem {l : List String} {a : String}
    (ha : a ∉ l) : l.countP (fun x => x == a) = 0 :=
  List.countP_eq_zero.mpr fun _ hx hxa => ha (beq_iff_eq.mp hxa ▸ hx)

/-- Record events built through any wrapping function project back to the
wrapped records. -/
theorem filterMap_recOf_map_result_comp {α : Type} (f : α → StatusRecord)
    (l : List α) :
    (l.map fun a => Event.result (f a)).filterMap Event.recOf = l.map f := by
  induction l with
  | nil => rfl
  | cons a t ih => simp [Event.recOf, ih]

/-- Record events built through any wrapping function make no store
call. -/
theorem filterMap_storeOf_map_result_comp {α : Type} (f : α → StatusRecord)
    (l : List α) :
    (l.map fun a => Event.result (f a)).filterMap Event.storeOf = [] := by
  induction l with
  | nil => rfl
  | cons a t ih => simp [Event.storeOf, ih]

/-- Status records wrapped as events project back to themselves. -/
theorem filterMap_recOf_map_result (l : List StatusRecord) :
    (l.map Event.result).filterMap Event.recOf = l := by
  induction l with
  | nil => rfl
  | cons r t ih => simp [Event.recOf, ih]

/-- Status-record events make no store calls. -/
theorem filterMap_storeOf_map_result (l : List StatusRecord) :
    (l.map Event.result).filterMap Event.storeOf = [] := by
  induction l with
  | nil => rfl
  | cons r t ih => simp [Event.storeOf, ih]

/-- A concrete environment in which no dataset has store capability. -/
def envNoStore : Env :=
  ⟨fun _ => true, fun _ => false, fun _ => "/ds", fun _ => false,
    fun _ => false, fun _ _ _ => []⟩

/-- A concrete environment with store capability everywhere whose store
never reports on anything. -/
def envSilentStore : Env :=
  ⟨fun _ => true, fun _ => false, fun _ => "/ds", fun _ => false,
    fun _ => true, fun _ _ _ => []⟩

/-- C8: when a dataset is given and the requested path sequence is empty,
the whole run is the one obtained with the dataset root as the sole
requested path. -/
theorem C8_empty_path_defaults_to_dataset_root
    (env : Env) (d : String) (check : Bool) (if_dirty : DirtyPolicy) :
    Drop_call env [] (some d) check if_dirty =
      Drop_call env [d] (some d) check if_dirty := rfl

/-- C10: _drop_files on a bare single path yields exactly the events it
yields on the singleton list of that path — the paths argument is coerced
to a list before any processing. -/
theorem C10_single_path_coerced
    (env : Env) (ds p : String) (check n : Bool) (act : String) :
    _drop_files env ds (.one p) check n act =
      _drop_files env ds (.many [p]) check n act := rfl

/-- C2: when the dataset has a content store, _drop_files makes exactly
one store invocation, and on it check=true means empty options with no
forcing flag while check=false means exactly the forcing flag; precisely
one of the two modes applies. -/
theorem C2_check_controls_force
    (env : Env) (ds : String) (ps : PathArg) (check n : Bool) (act : String)
    (h : env.hasDrop ds = true) :
    ((_drop_files env ds ps check n act).filterMap Event.storeOf).length
        = 1 ∧
    ∀ c ∈ (_drop_files env ds ps check n act).filterMap Event.storeOf,
      (check = true ∧ c.opts = [] ∧ "--force" ∉ c.opts) ∨
      (check = false ∧ c.opts = ["--force"]) := by
  have hcalls : (_drop_files env ds ps check n act).filterMap Event.storeOf
      = [⟨ds, assure_list ps, drop_opts check⟩] := by
    simp [_drop_files, h, Event.storeOf, filterMap_storeOf_map_result]
  refine ⟨by rw [hcalls]; rfl, ?_⟩
  intro c hc
  rw [hcalls] at hc
  rcases List.mem_singleton.mp hc with rfl
  cases check with
  | true => exact Or.inl ⟨rfl, rfl, by simp [drop_opts]⟩
  | false => exact Or.inr ⟨rfl, rfl⟩

/-- C2 witness at a concrete environment. -/
theorem C2_check_controls_force_witness :
    envSilentStore.hasDrop "/ds" = true ∧
    ((((_drop_files envSilentStore "/ds" (.many ["/ds/f"]) true false
        "drop").filterMap Event.storeOf).length = 1) ∧
      ∀ c ∈ (_drop_files envSilentStore "/ds" (.many ["/ds/f"]) true false
          "drop").filterMap Event.storeOf,
        (true = true ∧ c.opts = [] ∧ "--force" ∉ c.opts) ∨
        (true = false ∧ c.opts = ["--force"])) :=
  ⟨rfl, C2_check_controls_force envSilentStore "/ds" (.many ["/ds/f"])
    true false "drop" rfl⟩

/-- C3: for a dataset without drop capability, _drop_files makes no store
call and emits exactly one record per requested path, impossible when
noannex_iserror and notneeded otherwise. -/
theorem C3_no_store_one_record_per_path
    (env : Env) (ds : String) (ps : List String) (check n : Bool)
    (act : String) (h : env.hasDrop ds = false)
    (hnodup : (ps.map (absPath ds)).Nodup) :
    ((_drop_files env ds (.many ps) check n act).filterMap Event.storeOf
        = []) ∧
    (((_drop_files env ds (.many ps) check n act).filterMap
        Event.recOf).length = ps.length) ∧
    (∀ r ∈ (_drop_files env ds (.many ps) check n act).filterMap
        Event.recOf,
      r.status = if n then Status.impossible else Status.notneeded) ∧
    ∀ p ∈ ps,
      pathCount
        ((_drop_files env ds (.many ps) check n act).filterMap Event.recOf)
        (absPath ds p) = 1 := by
  have hrec : (_drop_files env ds (.many ps) check n act).filterMap
      Event.recOf = ps.map fun p =>
      (⟨act, if n then Status.impossible else Status.notneeded,
        absPath ds p, noinfo_file_msg, none⟩ : StatusRecord) := by
    simp only [_drop_files, h, Bool.false_eq_true, if_false, assure_list]
    exact filterMap_recOf_map_result_comp _ _
  have hstore : (_drop_files env ds (.many ps) check n act).filterMap
      Event.storeOf = [] := by
    simp only [_drop_files, h, Bool.false_eq_true, if_false, assure_list]
    exact filterMap_storeOf_map_result_comp _ _
  refine ⟨hstore, by rw [hrec]; simp, ?_, ?_⟩
  · intro r hr
    rw [hrec] at hr
    rcases List.mem_map.mp hr with ⟨p, _, rfl⟩
    rfl
  · intro p hp
    rw [hrec]
    unfold pathCount
    rw [List.countP_map]
    have : ps.countP
        ((fun r : StatusRecord => r.path == absPath ds p) ∘ fun q =>
          (⟨act, if n then Status.impossible else Status.notneeded,
            absPath ds q, noinfo_file_msg, none⟩ : StatusRecord))
        = (ps.map (absPath ds)).countP fun x => x == absPath ds p := by
      rw [List.countP_map]
      rfl
    rw [this]
    exact countP_beq_eq_one_of_nodup_mem hnodup
      (List.mem_map.mpr ⟨p, hp, rfl⟩)

/-- C3 witness at a concrete environment. -/
theorem C3_no_store_one_record_per_path_witness :
    envNoStore.hasDrop "/ds" = false ∧
    (["f"].map (absPath "/ds")).Nodup ∧
    (((_drop_files envNoStore "/ds" (.many ["f"]) true false
        "drop").filterMap Event.storeOf = []) ∧
      (((_drop_files envNoStore "/ds" (.many ["f"]) true false
          "drop").filterMap Event.recOf).length = ["f"].length) ∧
      (∀ r ∈ (_drop_files envNoStore "/ds" (.many ["f"]) true false
          "drop").filterMap Event.recOf,
        r.status = if false then Status.impossible else Status.notneeded) ∧
      ∀ p ∈ ["f"],
        pathCount ((_drop_files envNoStore "/ds" (.many ["f"]) true false
          "drop").filterMap Event.recOf) (absPath "/ds" p) = 1) :=
  ⟨rfl, by decide,
    C3_no_store_one_record_per_path envNoStore "/ds" ["f"] true false
      "drop" rfl (by decide)⟩

/-- C7 (amended): every record a dataset without content-store capability
yields carries the message of noinfo_file_msg, which is the string
spelled no annex'ed content. -/
theorem C7_noannex_message
    (env : Env) (ds : String) (ps : PathArg) (check n : Bool) (act : String)
    (h : env.hasDrop ds = false) :
    ∀ r ∈ (_drop_files env ds ps check n act).filterMap Event.recOf,
      r.message = "no annex'ed content" := by
  intro r hr
  simp only [_drop_files, h, Bool.false_eq_true, if_false] at hr
  rw [filterMap_recOf_map_result_comp] at hr
  rcases List.mem_map.mp hr with ⟨p, _, rfl⟩
  rfl

/-- C7 witness at a concrete environment. -/
theorem C7_noannex_message_witness :
    envNoStore.hasDrop "/ds" = false ∧
    ∀ r ∈ (_drop_files envNoStore "/ds" (.many ["f"]) true false
        "drop").filterMap Event.recOf,
      r.message = "no annex'ed content" :=
  ⟨rfl, C7_noannex_message envNoStore "/ds" (.many ["f"]) true false
    "drop" rfl⟩

/-- C7 is false as stated: the record for a path of a dataset without a
content store carries the message no annex'ed content, not the message
no content store for this path. -/
theorem C7_counterexample :
    (((_drop_files envNoStore "/ds" (.many ["f"]) true false
        "drop").filterMap Event.recOf).map StatusRecord.message
      = ["no annex'ed content"]) ∧
    "no annex'ed content" ≠ "no content store for this path" := by
  exact ⟨rfl, by decide⟩

/-- A reported path is skipped by the reconciler. -/
theorem noinfo_one_none (env : Env) (act ds : String)
    (succ fl : List String) (p0 : String)
    (h : (succ.contains (absPath ds p0) || fl.contains (absPath ds p0))
      = true) : noinfo_one env act ds succ fl p0 = none := by
  unfold noinfo_one
  rw [h]
  rfl

/-- An unreported path gets exactly one reconciliation record, and that
record carries its normalised path. -/
theorem noinfo_one_path (env : Env) (act ds : String)
    (succ fl : List String) (p0 : String)
    (h : (succ.contains (absPath ds p0) || fl.contains (absPath ds p0))
      = false) :
    ∃ r, noinfo_one env act ds succ fl p0 = some r ∧
      r.path = absPath ds p0 := by
  unfold noinfo_one
  rw [h]
  simp only [Bool.false_eq_true, if_false]
  by_cases hd : env.isdir (absPath ds p0) = true
  · rw [if_pos hd]
    by_cases hf : (fl.any fun fp => path_startswith fp (absPath ds p0))
        = true
    · rw [if_pos hf]
      exact ⟨_, rfl, rfl⟩
    · rw [if_neg hf]
      exact ⟨_, rfl, rfl⟩
  · rw [if_neg hd]
    exact ⟨_, rfl, rfl⟩

/-- Path counting factors through the projection to paths. -/
theorem pathCount_eq_countP_map (rs : List StatusRecord) (p : String) :
    pathCount rs p = (rs.map StatusRecord.path).countP fun x => x == p := by
  unfold pathCount
  rw [List.countP_map]
  rfl

/-- The translated store records report exactly the normalised paths the
store reported. -/
theorem store_results_paths (env : Env) (act ds : String)
    (ps : List String) (check : Bool) :
    (store_results env act ds ps check).map StatusRecord.path =
      (env.repoDrop ds ps (drop_opts check)).map fun r =>
        absPath ds r.file := by
  unfold store_results
  rw [List.map_map]
  rfl

/-- Membership in the two respath_by_status buckets together is exactly
membership in the set of paths the store reported on. -/
theorem buckets_contains_iff (env : Env) (act ds : String)
    (ps : List String) (check : Bool) (x : String) :
    ((store_success_paths env act ds ps check).contains x
      || (store_failure_paths env act ds ps check).contains x) = true ↔
    x ∈ (store_results env act ds ps check).map StatusRecord.path := by
  rw [Bool.or_eq_true]
  constructor
  · rintro (h | h)
    · rcases List.mem_map.mp (List.elem_iff.mp h) with ⟨r, hr, rfl⟩
      exact List.mem_map.mpr ⟨r, (List.mem_filter.mp hr).1, rfl⟩
    · rcases List.mem_map.mp (List.elem_iff.mp h) with ⟨r, hr, rfl⟩
      exact List.mem_map.mpr ⟨r, (List.mem_filter.mp hr).1, rfl⟩
  · intro hx
    rcases List.mem_map.mp hx with ⟨r, hr, rfl⟩
    by_cases hs : success_status_map r.status = true
    · exact Or.inl (List.elem_iff.mpr (List.mem_map.mpr
        ⟨r, List.mem_filter.mpr ⟨hr, hs⟩, rfl⟩))
    · exact Or.inr (List.elem_iff.mpr (List.mem_map.mpr
        ⟨r, List.mem_filter.mpr ⟨hr, by simp [hs]⟩, rfl⟩))

/-- How often a given path occurs among the reconciliation records:
once when it was requested and unreported, never otherwise (for itself
normalisation-invariant request lists without duplicates). -/
theorem noinfo_pathCount (env : Env) (act ds : String)
    (ps succ fl : List String) (p : String)
    (hid : ∀ q ∈ ps, absPath ds q = q) (hnodup : ps.Nodup) :
    pathCount (results_from_annex_noinfo env act ds ps succ fl) p =
      if p ∈ ps ∧ (succ.contains p || fl.contains p) = false then 1
      else 0 := by
  unfold results_from_annex_noinfo
  induction ps with
  | nil => simp [pathCount]
  | cons q t ih =>
    have hidq : absPath ds q = q := hid q (List.mem_cons_self q t)
    have hidt : ∀ x ∈ t, absPath ds x = x := fun x hx =>
      hid x (List.mem_cons_of_mem q hx)
    have hnt : t.Nodup := (List.nodup_cons.mp hnodup).2
    have hqt : q ∉ t := (List.nodup_cons.mp hnodup).1
    cases hskip : (succ.contains (absPath ds q)
        || fl.contains (absPath ds q)) with
    | true =>
      rw [List.filterMap_cons_none
        (noinfo_one_none env act ds succ fl q hskip)]
      rw [ih hidt hnt]
      rw [hidq] at hskip
      by_cases hpq : p = q
      · subst hpq
        have hC1 : ¬(p ∈ t ∧ (succ.contains p || fl.contains p)
            = false) := by
          rintro ⟨_, hc⟩
          rw [hskip] at hc
          cases hc
        have hC2 : ¬(p ∈ p :: t ∧ (succ.contains p || fl.contains p)
            = false) := by
          rintro ⟨_, hc⟩
          rw [hskip] at hc
          cases hc
        rw [if_neg hC1, if_neg hC2]
      · have hiff : (p ∈ t ∧ (succ.contains p || fl.contains p) = false)
            ↔ (p ∈ q :: t ∧ (succ.contains p || fl.contains p)
              = false) := by
          constructor
          · rintro ⟨hm, hc⟩
            exact ⟨List.mem_cons_of_mem q hm, hc⟩
          · rintro ⟨hm, hc⟩
            rcases List.mem_cons.mp hm with h | h
            · exact absurd h hpq
            · exact ⟨h, hc⟩
        rw [if_congr hiff rfl rfl]
    | false =>
      rcases noinfo_one_path env act ds succ fl q hskip with ⟨r, hr, hpath⟩
      rw [List.filterMap_cons_some hr]
      unfold pathCount at ih ⊢
      rw [List.countP_cons, ih hidt hnt, hpath, hidq]
      rw [hidq] at hskip
      by_cases hpq : p = q
      · subst hpq
        have hC1 : ¬(p ∈ t ∧ (succ.contains p || fl.contains p)
            = false) := by
          rintro ⟨hm, _⟩
          exact hqt hm
        rw [if_neg hC1, if_pos (beq_self_eq_true p),
          if_pos ⟨List.mem_cons_self p t, hskip⟩]
      · have hqp : ¬(q == p) = true := fun hb =>
          hpq (beq_iff_eq.mp hb).symm
        rw [if_neg hqp]
        have hiff : (p ∈ t ∧ (succ.contains p || fl.contains p) = false)
            ↔ (p ∈ q :: t ∧ (succ.contains p || fl.contains p)
              = false) := by
          constructor
          · rintro ⟨hm, hc⟩
            exact ⟨List.mem_cons_of_mem q hm, hc⟩
          · rintro ⟨hm, hc⟩
            rcases List.mem_cons.mp hm with h | h
            · exact absurd h hpq
            · exact ⟨h, hc⟩
        rw [if_congr hiff rfl rfl]
        exact Nat.add_zero _

/-- The records _drop_files emits when the dataset has a content store:
the translated store reports followed by the reconciliation records. -/
theorem drop_files_records_hasDrop (env : Env) (ds : String)
    (ps : List String) (check n : Bool) (act : String)
    (h : env.hasDrop ds = true) :
    (_drop_files env ds (.many ps) check n act).filterMap Event.recOf =
      store_results env act ds ps check ++
        results_from_annex_noinfo env act ds ps
          (store_success_paths env act ds ps check)
          (store_failure_paths env act ds ps check) := by
  simp only [_drop_files, h, if_true, assure_list]
  rw [List.filterMap_cons_none rfl]
  rw [List.filterMap_append, filterMap_recOf_map_result,
    filterMap_recOf_map_result]

/-- The records _drop_files emits when the dataset lacks a content
store. -/
theorem drop_files_records_noDrop (env : Env) (ds : String)
    (ps : List String) (check n : Bool) (act : String)
    (h : env.hasDrop ds = false) :
    (_drop_files env ds (.many ps) check n act).filterMap Event.recOf =
      ps.map fun p =>
        (⟨act, if n then Status.impossible else Status.notneeded,
          absPath ds p, noinfo_file_msg, none⟩ : StatusRecord) := by
  simp only [_drop_files, h, Bool.false_eq_true, if_false, assure_list]
  exact filterMap_recOf_map_result_comp _ _

/-- How often a given path occurs among the translated store records. -/
theorem store_results_pathCount (env : Env) (act ds : String)
    (ps : List String) (check : Bool) (p : String)
    (hnd : ((env.repoDrop ds ps (drop_opts check)).map fun r =>
      absPath ds r.file).Nodup) :
    pathCount (store_results env act ds ps check) p =
      if p ∈ (store_results env act ds ps check).map StatusRecord.path
      then 1 else 0 := by
  rw [pathCount_eq_countP_map]
  by_cases hm : p ∈ (store_results env act ds ps check).map
      StatusRecord.path
  · rw [if_pos hm]
    refine countP_beq_eq_one_of_nodup_mem ?_ hm
    rw [store_results_paths]
    exact hnd
  · rw [if_neg hm]
    exact countP_beq_eq_zero_of_not_mem hm

/-- A requested path of a group is reported on exactly once by
_drop_files on that group (under store sanity, absolute duplicate-free
requests). -/
theorem drop_files_pathCount_mem (env : Env) (ds : String)
    (ps : List String) (check n : Bool) (act : String) (p : String)
    (hsane : storeSane env)
    (hid : ∀ q ∈ ps, absPath ds q = q)
    (hnodup : ps.Nodup) (hp : p ∈ ps) :
    pathCount
      ((_drop_files env ds (.many ps) check n act).filterMap Event.recOf)
      p = 1 := by
  by_cases hdrop : env.hasDrop ds
  · rw [drop_files_records_hasDrop env ds ps check n act hdrop]
    unfold pathCount
    rw [List.countP_append]
    have hstore := store_results_pathCount env act ds ps check p
      (hsane ds ps (drop_opts check)).1
    have hnoinfo := noinfo_pathCount env act ds ps
      (store_success_paths env act ds ps check)
      (store_failure_paths env act ds ps check) p hid hnodup
    unfold pathCount at hstore hnoinfo
    rw [hstore, hnoinfo]
    by_cases hm : p ∈ (store_results env act ds ps check).map
        StatusRecord.path
    · have hc := (buckets_contains_iff env act ds ps check p).mpr hm
      rw [if_pos hm, if_neg]
      rintro ⟨_, hfalse⟩
      rw [hc] at hfalse
      cases hfalse
    · rw [if_neg hm, if_pos]
      refine ⟨hp, ?_⟩
      cases hb : ((store_success_paths env act ds ps check).contains p
          || (store_failure_paths env act ds ps check).contains p) with
      | true => exact absurd ((buckets_contains_iff env act ds ps check
          p).mp hb) hm
      | false => rfl
  · have hdrop' : env.hasDrop ds = false := by
      cases hh : env.hasDrop ds with
      | true => exact absurd hh hdrop
      | false => rfl
    rw [drop_files_records_noDrop env ds ps check n act hdrop']
    unfold pathCount
    rw [List.countP_map]
    have hcg : ps.countP ((fun r : StatusRecord => r.path == p) ∘ fun q =>
        (⟨act, if n then Status.impossible else Status.notneeded,
          absPath ds q, noinfo_file_msg, none⟩ : StatusRecord)) =
        ps.countP fun q => q == p := by
      refine List.countP_congr ?_
      intro q hq
      simp [Function.comp, hid q hq]
    rw [hcg]
    exact countP_beq_eq_one_of_nodup_mem hnodup hp

/-- A path that either does not exist or belongs to another dataset is
never reported on by _drop_files on this group (under store sanity). -/
theorem drop_files_pathCount_foreign (env : Env) (ds : String)
    (ps : List String) (check n : Bool) (act : String) (p : String)
    (hsane : storeSane env)
    (hid : ∀ q ∈ ps, absPath ds q = q)
    (hnodup : ps.Nodup)
    (hq : ∀ q ∈ ps, env.pathExists q = true ∧ env.dsOf q = ds)
    (hp : env.pathExists p = false ∨ env.dsOf p ≠ ds) :
    pathCount
      ((_drop_files env ds (.many ps) check n act).filterMap Event.recOf)
      p = 0 := by
  have hpne : ∀ q ∈ ps, ¬(q == p) = true := by
    intro q hqq hbe
    rcases hq q hqq with ⟨he, hd⟩
    rw [beq_iff_eq.mp hbe] at he hd
    rcases hp with h | h
    · rw [he] at h
      cases h
    · exact h hd
  by_cases hdrop : env.hasDrop ds
  · rw [drop_files_records_hasDrop env ds ps check n act hdrop]
    unfold pathCount
    rw [List.countP_append]
    have h1 : (store_results env act ds ps check).countP
        (fun r => r.path == p) = 0 := by
      have hmm := pathCount_eq_countP_map
        (store_results env act ds ps check) p
      unfold pathCount at hmm
      rw [hmm]
      refine countP_beq_eq_zero_of_not_mem ?_
      intro hm
      rw [store_results_paths] at hm
      rcases List.mem_map.mp hm with ⟨r, hr, hrp⟩
      rcases (hsane ds ps (drop_opts check)).2 r hr with ⟨he, hd⟩
      rw [hrp] at he hd
      rcases hp with h | h
      · rw [he] at h
        cases h
      · exact h hd
    have h2 := noinfo_pathCount env act ds ps
      (store_success_paths env act ds ps check)
      (store_failure_paths env act ds ps check) p hid hnodup
    unfold pathCount at h2
    rw [h1, h2]
    have hnc : ¬(p ∈ ps ∧
        ((store_success_paths env act ds ps check).contains p
          || (store_failure_paths env act ds ps check).contains p)
            = false) := by
      rintro ⟨hmem, _⟩
      exact hpne p hmem (by simp)
    rw [if_neg hnc]
  · have hdrop' : env.hasDrop ds = false := by
      cases hh : env.hasDrop ds with
      | true => exact absurd hh hdrop
      | false => rfl
    rw [drop_files_records_noDrop env ds ps check n act hdrop']
    unfold pathCount
    rw [List.countP_map]
    refine List.countP_eq_zero.mpr ?_
    intro q hqq hbe
    have hqp : (q == p) = true := by
      have hpath : absPath ds q = q := hid q hqq
      simpa [Function.comp, hpath] using hbe
    exact hpne q hqq hqp

/-- An absolute path is left untouched by the normalisation. -/
theorem absPath_of_isabs (ds p : String) (h : isabs p = true) :
    absPath ds p = p := by
  unfold absPath
  rw [h]
  rfl

/-- Path counting over concatenated per-group event lists is the sum of
the per-group counts. -/
theorem pathCount_filterMap_concatMap {α : Type} (f : α → List Event)
    (l : List α) (p : String) :
    pathCount ((concatMap f l).filterMap Event.recOf) p =
      (l.map fun a => pathCount ((f a).filterMap Event.recOf) p).sum := by
  induction l with
  | nil => rfl
  | cons a t ih =>
    show pathCount (((f a) ++ concatMap f t).filterMap Event.recOf) p = _
    unfold pathCount at ih ⊢
    rw [List.filterMap_append, List.countP_append, List.map_cons,
      List.sum_cons, ih]

/-- Summing an indicator function over a duplicate-free list containing
its designated element gives one. -/
theorem sum_map_ite_eq_one {l : List String} (d0 : String)
    (f : String → Nat) (hn : l.Nodup) (hm : d0 ∈ l)
    (hf : ∀ d ∈ l, f d = if d = d0 then 1 else 0) :
    (l.map f).sum = 1 := by
  induction l with
  | nil => cases hm
  | cons b t ih =>
    rw [List.map_cons, List.sum_cons]
    have hbt : b ∉ t := (List.nodup_cons.mp hn).1
    have hnt : t.Nodup := (List.nodup_cons.mp hn).2
    rcases List.mem_cons.mp hm with h | h
    · have hz : (t.map f).sum = 0 := by
        refine List.sum_eq_zero ?_
        intro x hx
        rcases List.mem_map.mp hx with ⟨d, hd, rfl⟩
        rw [hf d (List.mem_cons_of_mem _ hd), if_neg]
        intro he
        rw [he, h] at hd
        exact hbt hd
      rw [hz, hf b (List.mem_cons_self _ _), if_pos h.symm]
    · have hb0 : ¬b = d0 := by
        intro he
        rw [he] at hbt
        exact hbt h
      rw [hf b (List.mem_cons_self _ _), if_neg hb0,
        ih hnt h fun d hd => hf d (List.mem_cons_of_mem _ hd)]

/-- Summing a pointwise-zero function over a list gives zero. -/
theorem sum_map_zero {α : Type} (f : α → Nat) (l : List α)
    (hf : ∀ a ∈ l, f a = 0) : (l.map f).sum = 0 := by
  refine List.sum_eq_zero ?_
  intro x hx
  rcases List.mem_map.mp hx with ⟨a, ha, rfl⟩
  exact hf a ha

/-- The unavailable-path component of the grouping. -/
theorem prep_fst (env : Env) (paths : List String) :
    (prep env paths).1 = paths.filter fun p => !(env.pathExists p) := rfl

/-- The per-dataset component of the grouping. -/
theorem prep_snd (env : Env) (paths : List String) :
    (prep env paths).2 =
      ((paths.filter fun p => env.pathExists p).map env.dsOf).dedup.map
        fun d =>
          (d, (paths.filter fun p => env.pathExists p).filter
            fun q => env.dsOf q == d) := rfl

/-- Whether a run aborted is exactly what the cleanliness guard said. -/
theorem Drop_call_aborted (env : Env) (path : List String)
    (dataset : Option String) (check : Bool) (if_dirty : DirtyPolicy) :
    (Drop_call env path dataset check if_dirty).aborted =
      handle_dirty_datasets env
        ((prep env (effective_paths dataset path)).2.map Prod.fst)
        if_dirty := by
  simp only [Drop_call]
  cases h : handle_dirty_datasets env
      ((prep env (effective_paths dataset path)).2.map Prod.fst)
      if_dirty with
  | true => rfl
  | false => rfl

/-- The record stream of a run the guard did not abort: the
unavailable-path records followed by the per-dataset records. -/
theorem Drop_call_records_of_guard_false (env : Env) (path : List String)
    (dataset : Option String) (check : Bool) (if_dirty : DirtyPolicy)
    (h : handle_dirty_datasets env
      ((prep env (effective_paths dataset path)).2.map Prod.fst) if_dirty
        = false) :
    (Drop_call env path dataset check if_dirty).records =
      results_from_paths "drop" Status.notneeded
        (fun p => "path does not exist: " ++ p)
        (prep env (effective_paths dataset path)).1 ++
      (concatMap
        (fun g => _drop_files env g.1 (.many g.2) check false "drop")
        (prep env (effective_paths dataset path)).2).filterMap
          Event.recOf := by
  unfold Trace.records
  simp only [Drop_call]
  rw [if_neg (by rw [h]; intro hc; cases hc)]
  rw [List.filterMap_append, filterMap_recOf_map_result,
    List.filterMap_cons_none rfl]

/-- The full event list of an aborted run: the unavailable-path records
followed by the single guard event. -/
theorem Drop_call_events_of_guard_true (env : Env) (path : List String)
    (dataset : Option String) (check : Bool) (if_dirty : DirtyPolicy)
    (h : handle_dirty_datasets env
      ((prep env (effective_paths dataset path)).2.map Prod.fst) if_dirty
        = true) :
    (Drop_call env path dataset check if_dirty).events =
      (results_from_paths "drop" Status.notneeded
        (fun p => "path does not exist: " ++ p)
        (prep env (effective_paths dataset path)).1).map Event.result ++
      [Event.guard
        ((prep env (effective_paths dataset path)).2.map Prod.fst)
        if_dirty] := by
  simp only [Drop_call]
  rw [if_pos h]

/-- Path counting distributes over record-list concatenation. -/
theorem pathCount_append (l1 l2 : List StatusRecord) (p : String) :
    pathCount (l1 ++ l2) p = pathCount l1 p + pathCount l2 p :=
  List.countP_append _ _ _

/-- Counting a path among unavailable-path records counts the path among
the unavailable paths themselves. -/
theorem results_from_paths_pathCount (act : String) (st : Status)
    (msg : String → String) (paths : List String) (p : String) :
    pathCount (results_from_paths act st msg paths) p =
      paths.countP fun q => q == p := by
  unfold pathCount results_from_paths
  rw [List.countP_map]
  rfl

/-- How often one group of the orchestrator reports on a requested path:
once when the path exists and belongs to the group's dataset, never
otherwise. -/
theorem group_pathCount (env : Env) (eff : List String) (check : Bool)
    (p d : String) (hsane : storeSane env)
    (habs : ∀ q ∈ eff, isabs q = true) (hnodup : eff.Nodup)
    (hp : p ∈ eff) :
    pathCount ((_drop_files env d
      (.many ((eff.filter fun q => env.pathExists q).filter
        fun q => env.dsOf q == d)) check false "drop").filterMap
          Event.recOf) p =
      if env.pathExists p = true ∧ env.dsOf p = d then 1 else 0 := by
  have hid : ∀ q ∈ (eff.filter fun q => env.pathExists q).filter
      fun q => env.dsOf q == d, absPath d q = q := by
    intro q hq
    exact absPath_of_isabs _ _ (habs q
      (List.mem_filter.mp (List.mem_filter.mp hq).1).1)
  have hnd : ((eff.filter fun q => env.pathExists q).filter
      fun q => env.dsOf q == d).Nodup :=
    List.Nodup.filter _ (List.Nodup.filter _ hnodup)
  have hqf : ∀ q ∈ (eff.filter fun q => env.pathExists q).filter
      fun q => env.dsOf q == d,
      env.pathExists q = true ∧ env.dsOf q = d := by
    intro q hq
    have h1 := List.mem_filter.mp hq
    have h2 := List.mem_filter.mp h1.1
    exact ⟨h2.2, beq_iff_eq.mp h1.2⟩
  by_cases hc : env.pathExists p = true ∧ env.dsOf p = d
  · rw [if_pos hc]
    exact drop_files_pathCount_mem env d _ check false "drop" p hsane hid
      hnd (List.mem_filter.mpr ⟨List.mem_filter.mpr ⟨hp, hc.1⟩,
        beq_iff_eq.mpr hc.2⟩)
  · rw [if_neg hc]
    refine drop_files_pathCount_foreign env d _ check false "drop" p
      hsane hid hnd hqf ?_
    by_cases he : env.pathExists p = true
    · right
      intro hd
      exact hc ⟨he, hd⟩
    · left
      cases hh : env.pathExists p with
      | true => exact absurd hh he
      | false => rfl

/-- C1: in a run that completes (no cleanliness-guard abort), every path
of the effective request is reported on by exactly one emitted status
record — no requested path is missing from the stream and none is
reported twice (for a duplicate-free absolute request list, against a
sane store). -/
theorem C1_each_requested_path_reported_once
    (env : Env) (path : List String) (dataset : Option String)
    (check : Bool) (if_dirty : DirtyPolicy) (p : String)
    (hsane : storeSane env)
    (habs : ∀ q ∈ effective_paths dataset path, isabs q = true)
    (hnodup : (effective_paths dataset path).Nodup)
    (hrun : (Drop_call env path dataset check if_dirty).aborted = false)
    (hp : p ∈ effective_paths dataset path) :
    pathCount (Drop_call env path dataset check if_dirty).records p
      = 1 := by
  have hguard : handle_dirty_datasets env
      ((prep env (effective_paths dataset path)).2.map Prod.fst)
      if_dirty = false := by
    rw [Drop_call_aborted] at hrun
    exact hrun
  rw [Drop_call_records_of_guard_false env path dataset check if_dirty
    hguard, pathCount_append, pathCount_filterMap_concatMap, prep_snd,
    List.map_map, results_from_paths_pathCount, prep_fst]
  by_cases hex : env.pathExists p = true
  · have hz : ((effective_paths dataset path).filter
        fun q => !(env.pathExists q)).countP (fun q => q == p) = 0 := by
      refine countP_beq_eq_zero_of_not_mem ?_
      intro hmem
      have hb := (List.mem_filter.mp hmem).2
      rw [hex] at hb
      cases hb
    rw [hz, Nat.zero_add]
    refine sum_map_ite_eq_one (env.dsOf p) _ (List.nodup_dedup _) ?_ ?_
    · exact List.mem_dedup.mpr (List.mem_map.mpr
        ⟨p, List.mem_filter.mpr ⟨hp, hex⟩, rfl⟩)
    · intro d hd
      have hgc := group_pathCount env (effective_paths dataset path)
        check p d hsane habs hnodup hp
      have hiff : (env.pathExists p = true ∧ env.dsOf p = d)
          ↔ (d = env.dsOf p) := by
        constructor
        · rintro ⟨_, hh⟩
          exact hh.symm
        · intro hh
          exact ⟨hex, hh.symm⟩
      rw [if_congr hiff rfl rfl] at hgc
      exact hgc
  · have hexf : env.pathExists p = false := by
      cases hh : env.pathExists p with
      | true => exact absurd hh hex
      | false => rfl
    have h1 : ((effective_paths dataset path).filter
        fun q => !(env.pathExists q)).countP (fun q => q == p) = 1 := by
      refine countP_beq_eq_one_of_nodup_mem (List.Nodup.filter _ hnodup)
        ?_
      refine List.mem_filter.mpr ⟨hp, ?_⟩
      rw [hexf]
      rfl
    rw [h1]
    refine Eq.trans (congrArg (fun x => 1 + x) ?_) (Nat.add_zero 1)
    refine sum_map_zero _ _ ?_
    intro d hd
    have hgc := group_pathCount env (effective_paths dataset path) check
      p d hsane habs hnodup hp
    rw [if_neg] at hgc
    · exact hgc
    · rintro ⟨hh, _⟩
      rw [hexf] at hh
      cases hh

/-- The silent store environment satisfies store sanity. -/
theorem envSilentStore_sane : storeSane envSilentStore := by
  intro ds paths opts
  exact ⟨List.nodup_nil, fun r hr => absurd hr (List.not_mem_nil r)⟩

/-- C1 witness at a concrete environment. -/
theorem C1_each_requested_path_reported_once_witness :
    storeSane envSilentStore ∧
    pathCount (Drop_call envSilentStore ["/ds/f"] none true
      DirtyPolicy.ignore).records "/ds/f" = 1 := by
  refine ⟨envSilentStore_sane, ?_⟩
  exact C1_each_requested_path_reported_once envSilentStore ["/ds/f"]
    none true DirtyPolicy.ignore "/ds/f" envSilentStore_sane (by decide)
    (by decide) (by decide) (by decide)

/-- The record stream of an aborted run is the unavailable-path records
alone. -/
theorem Drop_call_records_of_guard_true (env : Env) (path : List String)
    (dataset : Option String) (check : Bool) (if_dirty : DirtyPolicy)
    (h : handle_dirty_datasets env
      ((prep env (effective_paths dataset path)).2.map Prod.fst) if_dirty
        = true) :
    (Drop_call env path dataset check if_dirty).records =
      results_from_paths "drop" Status.notneeded
        (fun p => "path does not exist: " ++ p)
        (prep env (effective_paths dataset path)).1 := by
  unfold Trace.records
  rw [Drop_call_events_of_guard_true env path dataset check if_dirty h,
    List.filterMap_append, filterMap_recOf_map_result,
    List.filterMap_cons_none rfl]
  exact List.append_nil _

/-- A concrete environment in which every dataset is dirty. -/
def envDirty : Env :=
  ⟨fun _ => true, fun _ => false, fun _ => "/ds", fun _ => true,
    fun _ => false, fun _ _ _ => []⟩

/-- C4: under the fail dirty-policy, when some grouped dataset is dirty
the run aborts before any per-dataset drop step: the abort is signalled,
the guard ran exactly once (never per path), no store call was made, and
every emitted record is an unavailable-path record — none reports on
dataset content. -/
theorem C4_fail_policy_aborts_before_dataset_drops
    (env : Env) (path : List String) (dataset : Option String)
    (check : Bool)
    (hdirty : (((prep env (effective_paths dataset path)).2.map
      Prod.fst).any env.dirty) = true) :
    (Drop_call env path dataset check DirtyPolicy.fail).aborted = true ∧
    ((Drop_call env path dataset check DirtyPolicy.fail).events.countP
      Event.isGuard) = 1 ∧
    (∀ e ∈ (Drop_call env path dataset check DirtyPolicy.fail).events,
      Event.isStore e = false) ∧
    ∀ r ∈ (Drop_call env path dataset check DirtyPolicy.fail).records,
      r.message = "path does not exist: " ++ r.path := by
  have hg : handle_dirty_datasets env
      ((prep env (effective_paths dataset path)).2.map Prod.fst)
      DirtyPolicy.fail = true := hdirty
  have hev := Drop_call_events_of_guard_true env path dataset check
    DirtyPolicy.fail hg
  refine ⟨?_, ?_, ?_, ?_⟩
  · rw [Drop_call_aborted]
    exact hg
  · rw [hev, List.countP_append]
    have h1 : ((results_from_paths "drop" Status.notneeded
        (fun p => "path does not exist: " ++ p)
        (prep env (effective_paths dataset path)).1).map
          Event.result).countP Event.isGuard = 0 := by
      rw [List.countP_map]
      refine List.countP_eq_zero.mpr ?_
      intro a _ hca
      cases hca
    rw [h1]
    rfl
  · intro e he
    rw [hev] at he
    rcases List.mem_append.mp he with h | h
    · rcases List.mem_map.mp h with ⟨r, _, rfl⟩
      rfl
    · rw [List.mem_singleton.mp h]
      rfl
  · intro r hr
    rw [Drop_call_records_of_guard_true env path dataset check
      DirtyPolicy.fail hg] at hr
    unfold results_from_paths at hr
    rcases List.mem_map.mp hr with ⟨q, _, rfl⟩
    rfl

/-- C4 witness at a concrete environment. -/
theorem C4_fail_policy_aborts_before_dataset_drops_witness :
    (((prep envDirty (effective_paths none ["/ds/f"])).2.map
      Prod.fst).any envDirty.dirty) = true ∧
    ((Drop_call envDirty ["/ds/f"] none true DirtyPolicy.fail).aborted
        = true ∧
      ((Drop_call envDirty ["/ds/f"] none true
        DirtyPolicy.fail).events.countP Event.isGuard) = 1 ∧
      (∀ e ∈ (Drop_call envDirty ["/ds/f"] none true
          DirtyPolicy.fail).events, Event.isStore e = false) ∧
      ∀ r ∈ (Drop_call envDirty ["/ds/f"] none true
          DirtyPolicy.fail).records,
        r.message = "path does not exist: " ++ r.path) :=
  ⟨by decide, C4_fail_policy_aborts_before_dataset_drops envDirty
    ["/ds/f"] none true (by decide)⟩

/-- Unequal strings test unequal. -/
theorem beq_false_of_ne {a b : String} (h : a ≠ b) : (a == b) = false := by
  cases hb : (a == b) with
  | true => exact absurd (beq_iff_eq.mp hb) h
  | false => rfl

/-- None of the message shapes a drop executor emits is an
unavailable-path message. -/
theorem message_shape_ne_unavail (m x : String)
    (hm : m = "" ∨ m = noinfo_file_msg ∨
      (∃ y, m = "nothing to drop from " ++ y) ∨
      ∃ y, m = "could not drop some content in " ++ y) :
    m ≠ "path does not exist: " ++ x := by
  rcases hm with rfl | rfl | ⟨y, rfl⟩ | ⟨y, rfl⟩
  · exact ne_append_of_length_lt "" "path does not exist: " x (by decide)
  · exact ne_append_of_length_lt noinfo_file_msg "path does not exist: "
      x (by decide)
  · exact append_prefix_ne "nothing to drop from " "path does not exist: "
      y x 21 (by decide) (by decide) (by decide)
  · exact append_prefix_ne "could not drop some content in "
      "path does not exist: " y x 21 (by decide) (by decide) (by decide)

/-- The message of a reconciliation record is one of the three messages
handed over at the call site. -/
theorem noinfo_one_message (env : Env) (act ds : String)
    (succ fl : List String) (p0 : String) (r : StatusRecord)
    (h : noinfo_one env act ds succ fl p0 = some r) :
    r.message = dir_fail_msg ds (absPath ds p0) ∨
    r.message = noinfo_dir_msg (absPath ds p0) ∨
    r.message = noinfo_file_msg := by
  unfold noinfo_one at h
  split at h
  · cases h
  · split at h
    · split at h
      · rw [← Option.some.inj h]
        exact Or.inl rfl
      · rw [← Option.some.inj h]
        exact Or.inr (Or.inl rfl)
    · rw [← Option.some.inj h]
      exact Or.inr (Or.inr rfl)

/-- A reconciliation record is notneeded unless it is the
directory-failure record. -/
theorem noinfo_one_status (env : Env) (act ds : String)
    (succ fl : List String) (p0 : String) (r : StatusRecord)
    (h : noinfo_one env act ds succ fl p0 = some r) :
    r.status = Status.notneeded ∨
    (r.status = Status.impossible ∧
      r.message = dir_fail_msg ds (absPath ds p0)) := by
  unfold noinfo_one at h
  split at h
  · cases h
  · split at h
    · split at h
      · rw [← Option.some.inj h]
        exact Or.inr ⟨rfl, rfl⟩
      · rw [← Option.some.inj h]
        exact Or.inl rfl
    · rw [← Option.some.inj h]
      exact Or.inl rfl

/-- The message of every record the drop executor emits has one of four
shapes: empty (translated store report), the no-annex-content message,
the silent-directory message, or the directory-failure message. -/
theorem drop_files_record_message_shape (env : Env) (ds : String)
    (ps : List String) (check n : Bool) (act : String) :
    ∀ r ∈ (_drop_files env ds (.many ps) check n act).filterMap
        Event.recOf,
      r.message = "" ∨ r.message = noinfo_file_msg ∨
      (∃ y, r.message = "nothing to drop from " ++ y) ∨
      ∃ y, r.message = "could not drop some content in " ++ y := by
  intro r hr
  by_cases hdrop : env.hasDrop ds = true
  · rw [drop_files_records_hasDrop env ds ps check n act hdrop] at hr
    rcases List.mem_append.mp hr with h | h
    · unfold store_results at h
      rcases List.mem_map.mp h with ⟨a, _, rfl⟩
      exact Or.inl rfl
    · unfold results_from_annex_noinfo at h
      rcases List.mem_filterMap.mp h with ⟨q, _, hq⟩
      rcases noinfo_one_message env act ds _ _ q r hq with h1 | h1 | h1
      · refine Or.inr (Or.inr (Or.inr ⟨ds ++ (" " ++ absPath ds q), ?_⟩))
        rw [h1]
        rfl
      · refine Or.inr (Or.inr (Or.inl ⟨absPath ds q, ?_⟩))
        rw [h1]
        rfl
      · exact Or.inr (Or.inl h1)
  · have hdrop' : env.hasDrop ds = false := by
      cases hh : env.hasDrop ds with
      | true => exact absurd hh hdrop
      | false => rfl
    rw [drop_files_records_noDrop env ds ps check n act hdrop'] at hr
    rcases List.mem_map.mp hr with ⟨q, _, rfl⟩
    exact Or.inr (Or.inl rfl)

/-- Membership in a concatenation of per-element lists. -/
theorem mem_concatMap {α β : Type} (f : α → List β) (l : List α)
    (b : β) : b ∈ concatMap f l ↔ ∃ a ∈ l, b ∈ f a := by
  induction l with
  | nil =>
    constructor
    · intro h
      cases h
    · rintro ⟨a, ha, _⟩
      cases ha
  | cons a t ih =>
    show b ∈ f a ++ concatMap f t ↔ _
    rw [List.mem_append, ih]
    constructor
    · rintro (h | ⟨c, hc, hb⟩)
      · exact ⟨a, List.mem_cons_self a t, h⟩
      · exact ⟨c, List.mem_cons_of_mem a hc, hb⟩
    · rintro ⟨c, hc, hb⟩
      rcases List.mem_cons.mp hc with rfl | hct
      · exact Or.inl hb
      · exact Or.inr ⟨c, hct, hb⟩

/-- No event of the drop executor is an unavailable-path record. -/
theorem drop_files_events_not_unavail (env : Env) (ds : String)
    (ps : List String) (check n : Bool) (act : String) :
    ∀ e ∈ _drop_files env ds (.many ps) check n act,
      Event.isUnavail e = false := by
  intro e he
  cases e with
  | guard dss mode => rfl
  | store c => rfl
  | result r =>
    have hr : r ∈ (_drop_files env ds (.many ps) check n act).filterMap
        Event.recOf := List.mem_filterMap.mpr ⟨Event.result r, he, rfl⟩
    have hm := drop_files_record_message_shape env ds ps check n act r hr
    show (r.message == "path does not exist: " ++ r.path) = false
    exact beq_false_of_ne (message_shape_ne_unavail _ _ hm)

/-- Every unavailable-path record event is recognised as such. -/
theorem unavail_events_isUnavail (paths : List String) :
    ∀ e ∈ (results_from_paths "drop" Status.notneeded
      (fun q => "path does not exist: " ++ q) paths).map Event.result,
      Event.isUnavail e = true := by
  intro e he
  rcases List.mem_map.mp he with ⟨r, hr, rfl⟩
  unfold results_from_paths at hr
  rcases List.mem_map.mp hr with ⟨q, _, rfl⟩
  exact beq_self_eq_true _

/-- In a list split into an all-true part followed by an all-false part,
every true position precedes every false position. -/
theorem split_indices_lt (l A B : List Event) (hl : l = A ++ B)
    (hA : ∀ e ∈ A, Event.isUnavail e = true)
    (hB : ∀ e ∈ B, Event.isUnavail e = false)
    (i j : Nat) (hi : i < l.length) (hj : j < l.length)
    (hti : Event.isUnavail (l.get ⟨i, hi⟩) = true)
    (htj : Event.isUnavail (l.get ⟨j, hj⟩) = false) : i < j := by
  subst hl
  have hiA : i < A.length := by
    by_contra hge
    push_neg at hge
    have hmem : (A ++ B).get ⟨i, hi⟩ ∈ B := by
      rw [List.get_eq_getElem, List.getElem_append_right hge]
      exact List.getElem_mem _
    rw [hB _ hmem] at hti
    cases hti
  have hjA : A.length ≤ j := by
    by_contra hlt
    push_neg at hlt
    have hmem : (A ++ B).get ⟨j, hj⟩ ∈ A := by
      rw [List.get_eq_getElem, List.getElem_append_left hlt]
      exact List.getElem_mem _
    rw [hA _ hmem] at htj
    cases htj
  omega

/-- The full event list of a run the guard did not abort. -/
theorem Drop_call_events_of_guard_false (env : Env) (path : List String)
    (dataset : Option String) (check : Bool) (if_dirty : DirtyPolicy)
    (h : handle_dirty_datasets env
      ((prep env (effective_paths dataset path)).2.map Prod.fst) if_dirty
        = false) :
    (Drop_call env path dataset check if_dirty).events =
      (results_from_paths "drop" Status.notneeded
        (fun p => "path does not exist: " ++ p)
        (prep env (effective_paths dataset path)).1).map Event.result ++
      Event.guard ((prep env (effective_paths dataset path)).2.map
        Prod.fst) if_dirty ::
        concatMap
          (fun g => _drop_files env g.1 (.many g.2) check false "drop")
          (prep env (effective_paths dataset path)).2 := by
  simp only [Drop_call]
  rw [if_neg (by rw [h]; intro hc; cases hc)]

/-- Among the unavailable-path records of a duplicate-free path list, a
given member path is reported exactly once with the notneeded status and
its path-does-not-exist message. -/
theorem unavail_countP_special (paths : List String) (p : String)
    (hnodup : paths.Nodup) (hp : p ∈ paths) :
    ((results_from_paths "drop" Status.notneeded
      (fun q => "path does not exist: " ++ q) paths).countP fun r =>
        r.path == p && (r.status == Status.notneeded) &&
          (r.message == "path does not exist: " ++ p)) = 1 := by
  unfold results_from_paths
  rw [List.countP_map]
  have hcg : paths.countP ((fun r : StatusRecord =>
      r.path == p && (r.status == Status.notneeded) &&
        (r.message == "path does not exist: " ++ p)) ∘ fun q =>
          (⟨"drop", Status.notneeded, q, "path does not exist: " ++ q,
            none⟩ : StatusRecord)) = paths.countP fun q => q == p := by
    refine List.countP_congr ?_
    intro q _
    show ((q == p && (Status.notneeded == Status.notneeded)) &&
      (("path does not exist: " ++ q) == ("path does not exist: " ++ p)))
        = true ↔ (q == p) = true
    constructor
    · intro hcomp
      exact ((Bool.and_eq_true _ _).mp
        ((Bool.and_eq_true _ _).mp hcomp).1).1
    · intro hqp
      have hqp' : q = p := beq_iff_eq.mp hqp
      subst hqp'
      simp
  rw [hcg]
  exact countP_beq_eq_one_of_nodup_mem hnodup hp

/-- A concrete environment in which no path exists. -/
def envMissing : Env :=
  ⟨fun _ => false, fun _ => false, fun _ => "/ds", fun _ => false,
    fun _ => false, fun _ _ _ => []⟩

/-- C5: every requested path that does not resolve to an existing
filesystem entry is reported by exactly one record, notneeded, with the
path-does-not-exist message naming it, and all unavailable-path records
precede the cleanliness-guard event and every per-dataset event. -/
theorem C5_unavailable_paths_reported_first
    (env : Env) (path : List String) (dataset : Option String)
    (check : Bool) (if_dirty : DirtyPolicy) (p : String)
    (hnodup : (effective_paths dataset path).Nodup)
    (hp : p ∈ effective_paths dataset path)
    (hmiss : env.pathExists p = false) :
    ((Drop_call env path dataset check if_dirty).records.countP fun r =>
      r.path == p && (r.status == Status.notneeded) &&
        (r.message == "path does not exist: " ++ p)) = 1 ∧
    ∀ i j (hi : i < (Drop_call env path dataset check
        if_dirty).events.length)
      (hj : j < (Drop_call env path dataset check if_dirty).events.length),
      Event.isUnavail ((Drop_call env path dataset check
        if_dirty).events.get ⟨i, hi⟩) = true →
      Event.isUnavail ((Drop_call env path dataset check
        if_dirty).events.get ⟨j, hj⟩) = false →
      i < j := by
  have hnd1 : (prep env (effective_paths dataset path)).1.Nodup := by
    rw [prep_fst]
    exact List.Nodup.filter _ hnodup
  have hp1 : p ∈ (prep env (effective_paths dataset path)).1 := by
    rw [prep_fst]
    refine List.mem_filter.mpr ⟨hp, ?_⟩
    rw [hmiss]
    rfl
  constructor
  · cases hgd : handle_dirty_datasets env
        ((prep env (effective_paths dataset path)).2.map Prod.fst)
        if_dirty with
    | true =>
      rw [Drop_call_records_of_guard_true env path dataset check
        if_dirty hgd]
      exact unavail_countP_special _ p hnd1 hp1
    | false =>
      rw [Drop_call_records_of_guard_false env path dataset check
        if_dirty hgd, List.countP_append,
        unavail_countP_special _ p hnd1 hp1]
      have hz : (((concatMap
          (fun g => _drop_files env g.1 (.many g.2) check false "drop")
          (prep env (effective_paths dataset path)).2).filterMap
            Event.recOf).countP fun r =>
          r.path == p && (r.status == Status.notneeded) &&
            (r.message == "path does not exist: " ++ p)) = 0 := by
        refine List.countP_eq_zero.mpr ?_
        intro r hr hpr
        rcases List.mem_filterMap.mp hr with ⟨e, he, hre⟩
        rcases (mem_concatMap _ _ _).mp he with ⟨g, _, heg⟩
        have hrm : r ∈ (_drop_files env g.1 (.many g.2) check false
            "drop").filterMap Event.recOf :=
          List.mem_filterMap.mpr ⟨e, heg, hre⟩
        have hshape := drop_files_record_message_shape env g.1 g.2 check
          false "drop" r hrm
        have hmsg : (r.message == "path does not exist: " ++ p) = true :=
          ((Bool.and_eq_true _ _).mp hpr).2
        exact message_shape_ne_unavail _ _ hshape (beq_iff_eq.mp hmsg)
      rw [hz]
  · intro i j hi hj hti htj
    cases hgd : handle_dirty_datasets env
        ((prep env (effective_paths dataset path)).2.map Prod.fst)
        if_dirty with
    | true =>
      refine split_indices_lt _
        ((results_from_paths "drop" Status.notneeded
          (fun q => "path does not exist: " ++ q)
          (prep env (effective_paths dataset path)).1).map Event.result)
        [Event.guard ((prep env (effective_paths dataset path)).2.map
          Prod.fst) if_dirty]
        (Drop_call_events_of_guard_true env path dataset check if_dirty
          hgd)
        (unavail_events_isUnavail _) ?_ i j hi hj hti htj
      intro e he
      rw [List.mem_singleton.mp he]
      rfl
    | false =>
      refine split_indices_lt _
        ((results_from_paths "drop" Status.notneeded
          (fun q => "path does not exist: " ++ q)
          (prep env (effective_paths dataset path)).1).map Event.result)
        (Event.guard ((prep env (effective_paths dataset path)).2.map
          Prod.fst) if_dirty ::
          concatMap
            (fun g => _drop_files env g.1 (.many g.2) check false "drop")
            (prep env (effective_paths dataset path)).2)
        (Drop_call_events_of_guard_false env path dataset check if_dirty
          hgd)
        (unavail_events_isUnavail _) ?_ i j hi hj hti htj
      intro e he
      rcases List.mem_cons.mp he with rfl | hec
      · rfl
      · rcases (mem_concatMap _ _ _).mp hec with ⟨g, _, heg⟩
        exact drop_files_events_not_unavail env g.1 g.2 check false
          "drop" e heg

/-- C5 witness at a concrete environment. -/
theorem C5_unavailable_paths_reported_first_witness :
    (["missing.txt"] : List String).Nodup ∧
    (((Drop_call envMissing ["missing.txt"] none true
      DirtyPolicy.ignore).records.countP fun r =>
        r.path == "missing.txt" && (r.status == Status.notneeded) &&
          (r.message == "path does not exist: " ++ "missing.txt")) = 1 ∧
      ∀ i j (hi : i < (Drop_call envMissing ["missing.txt"] none true
          DirtyPolicy.ignore).events.length)
        (hj : j < (Drop_call envMissing ["missing.txt"] none true
          DirtyPolicy.ignore).events.length),
        Event.isUnavail ((Drop_call envMissing ["missing.txt"] none true
          DirtyPolicy.ignore).events.get ⟨i, hi⟩) = true →
        Event.isUnavail ((Drop_call envMissing ["missing.txt"] none true
          DirtyPolicy.ignore).events.get ⟨j, hj⟩) = false →
        i < j) :=
  ⟨by decide, C5_unavailable_paths_reported_first envMissing
    ["missing.txt"] none true DirtyPolicy.ignore "missing.txt"
    (by decide) (by decide) (by decide)⟩

/-- With the strict flag off, every record of the drop executor carrying
the no-annex-content message is notneeded. -/
theorem drop_files_noannexmsg_status (env : Env) (ds : String)
    (ps : List String) (check : Bool) (act : String) :
    ∀ r ∈ (_drop_files env ds (.many ps) check false act).filterMap
        Event.recOf,
      r.message = noinfo_file_msg → r.status = Status.notneeded := by
  intro r hr hm
  by_cases hdrop : env.hasDrop ds = true
  · rw [drop_files_records_hasDrop env ds ps check false act hdrop] at hr
    rcases List.mem_append.mp hr with h | h
    · unfold store_results at h
      rcases List.mem_map.mp h with ⟨a, _, rfl⟩
      have hh : ("" : String) = noinfo_file_msg := hm
      exact absurd hh (by decide)
    · unfold results_from_annex_noinfo at h
      rcases List.mem_filterMap.mp h with ⟨q, _, hq⟩
      rcases noinfo_one_status env act ds _ _ q r hq with h1 | ⟨_, h2⟩
      · exact h1
      · rw [hm] at h2
        exact absurd h2 (ne_append_of_length_lt noinfo_file_msg
          "could not drop some content in "
          (ds ++ (" " ++ absPath ds q)) (by decide))
  · have hdrop' : env.hasDrop ds = false := by
      cases hh : env.hasDrop ds with
      | true => exact absurd hh hdrop
      | false => rfl
    rw [drop_files_records_noDrop env ds ps check false act hdrop'] at hr
    rcases List.mem_map.mp hr with ⟨q, _, rfl⟩
    rfl

/-- C9: the public entry point leaves the strict no-annex flag at its
default False, so every grouped path of a dataset without drop
capability receives a notneeded record, and no emitted record that
carries the no-annex-content message is ever impossible — the strict
branch is unreachable from the public operation. -/
theorem C9_public_noannex_is_notneeded
    (env : Env) (path : List String) (dataset : Option String)
    (check : Bool) (if_dirty : DirtyPolicy) (ds : String)
    (ps : List String)
    (hg : (ds, ps) ∈ (prep env (effective_paths dataset path)).2)
    (hnd : env.hasDrop ds = false)
    (hrun : (Drop_call env path dataset check if_dirty).aborted
      = false) :
    (∀ p ∈ ps, ∃ r ∈ (Drop_call env path dataset check if_dirty).records,
      r.path = absPath ds p ∧ r.status = Status.notneeded) ∧
    ∀ r ∈ (Drop_call env path dataset check if_dirty).records,
      r.message = noinfo_file_msg → r.status = Status.notneeded := by
  have hguard : handle_dirty_datasets env
      ((prep env (effective_paths dataset path)).2.map Prod.fst)
      if_dirty = false := by
    rw [Drop_call_aborted] at hrun
    exact hrun
  constructor
  · intro p hp
    refine ⟨⟨"drop", Status.notneeded, absPath ds p, noinfo_file_msg,
      none⟩, ?_, rfl, rfl⟩
    rw [Drop_call_records_of_guard_false env path dataset check if_dirty
      hguard]
    refine List.mem_append.mpr (Or.inr ?_)
    refine List.mem_filterMap.mpr ⟨Event.result ⟨"drop",
      Status.notneeded, absPath ds p, noinfo_file_msg, none⟩, ?_, rfl⟩
    refine (mem_concatMap _ _ _).mpr ⟨(ds, ps), hg, ?_⟩
    simp only [_drop_files, hnd, Bool.false_eq_true, if_false,
      assure_list]
    exact List.mem_map.mpr ⟨p, hp, rfl⟩
  · intro r hr hm
    rw [Drop_call_records_of_guard_false env path dataset check if_dirty
      hguard] at hr
    rcases List.mem_append.mp hr with h | h
    · unfold results_from_paths at h
      rcases List.mem_map.mp h with ⟨q, _, rfl⟩
      rfl
    · rcases List.mem_filterMap.mp h with ⟨e, he, hre⟩
      rcases (mem_concatMap _ _ _).mp he with ⟨g, _, heg⟩
      exact drop_files_noannexmsg_status env g.1 g.2 check "drop" r
        (List.mem_filterMap.mpr ⟨e, heg, hre⟩) hm

/-- C9 witness at a concrete environment. -/
theorem C9_public_noannex_is_notneeded_witness :
    ("/ds", ["/ds/f"]) ∈ (prep envNoStore
      (effective_paths none ["/ds/f"])).2 ∧
    ((∀ p ∈ ["/ds/f"],
      ∃ r ∈ (Drop_call envNoStore ["/ds/f"] none true
          DirtyPolicy.ignore).records,
        r.path = absPath "/ds" p ∧ r.status = Status.notneeded) ∧
      ∀ r ∈ (Drop_call envNoStore ["/ds/f"] none true
          DirtyPolicy.ignore).records,
        r.message = noinfo_file_msg → r.status = Status.notneeded) :=
  ⟨by decide, C9_public_noannex_is_notneeded envNoStore ["/ds/f"] none
    true DirtyPolicy.ignore "/ds" ["/ds/f"] (by decide) rfl (by decide)⟩

/-- Every reconciliation record carries the normalised requested path it
was synthesised for. -/
theorem noinfo_one_path_eq (env : Env) (act ds : String)
    (succ fl : List String) (q : String) (r : StatusRecord)
    (h : noinfo_one env act ds succ fl q = some r) :
    r.path = absPath ds q := by
  unfold noinfo_one at h
  split at h
  · cases h
  · split at h
    · split at h
      · rw [← Option.some.inj h]
      · rw [← Option.some.inj h]
    · rw [← Option.some.inj h]

/-- C6 (amended): a requested path the store stayed silent about is
reported by exactly one record, and that record is: impossible with the
could-not-drop message when the path is a directory with a failed report
below it; notneeded with the nothing-to-drop message for any other
directory; notneeded with the no-annex-content message for a file. -/
theorem C6_silent_path_reconciled
    (env : Env) (ds : String) (ps : List String) (check n : Bool)
    (act : String) (p : String)
    (hdrop : env.hasDrop ds = true)
    (hid : ∀ q ∈ ps, absPath ds q = q)
    (hnodup : ps.Nodup) (hp : p ∈ ps)
    (hsilent : p ∉ (store_results env act ds ps check).map
      StatusRecord.path) :
    pathCount ((_drop_files env ds (.many ps) check n act).filterMap
      Event.recOf) p = 1 ∧
    ∀ r ∈ (_drop_files env ds (.many ps) check n act).filterMap
        Event.recOf, r.path = p →
      (if env.isdir p = true then
        (if ((store_failure_paths env act ds ps check).any
            fun fp => path_startswith fp p) = true then
          r.status = Status.impossible ∧ r.message = dir_fail_msg ds p
        else
          r.status = Status.notneeded ∧ r.message = noinfo_dir_msg p)
      else
        r.status = Status.notneeded ∧
          r.message = noinfo_file_msg) := by
  have hidp : absPath ds p = p := hid p hp
  have hskipA : ((store_success_paths env act ds ps check).contains
      (absPath ds p) || (store_failure_paths env act ds ps
        check).contains (absPath ds p)) = false := by
    rw [hidp]
    cases hb : ((store_success_paths env act ds ps check).contains p
        || (store_failure_paths env act ds ps check).contains p) with
    | true =>
      exact absurd ((buckets_contains_iff env act ds ps check p).mp hb)
        hsilent
    | false => rfl
  have hskipP := hskipA
  rw [hidp] at hskipP
  constructor
  · rw [drop_files_records_hasDrop env ds ps check n act hdrop,
      pathCount_append]
    have h0 : pathCount (store_results env act ds ps check) p = 0 := by
      rw [pathCount_eq_countP_map]
      exact countP_beq_eq_zero_of_not_mem hsilent
    have h1 := noinfo_pathCount env act ds ps
      (store_success_paths env act ds ps check)
      (store_failure_paths env act ds ps check) p hid hnodup
    rw [h0, h1, if_pos ⟨hp, hskipP⟩]
  · intro r hr hrp
    rw [drop_files_records_hasDrop env ds ps check n act hdrop] at hr
    rcases List.mem_append.mp hr with h | h
    · exact absurd (List.mem_map.mpr ⟨r, h, hrp⟩) hsilent
    · unfold results_from_annex_noinfo at h
      rcases List.mem_filterMap.mp h with ⟨q, hq, hqr⟩
      have hqp : q = p := by
        have h1 := noinfo_one_path_eq env act ds _ _ q r hqr
        rw [hrp, hid q hq] at h1
        exact h1.symm
      subst hqp
      unfold noinfo_one at hqr
      rw [hidp, hskipP] at hqr
      simp only [Bool.false_eq_true, if_false] at hqr
      by_cases hdir : env.isdir q = true
      · rw [if_pos hdir] at hqr ⊢
        by_cases hfail : ((store_failure_paths env act ds ps check).any
            fun fp => path_startswith fp q) = true
        · rw [if_pos hfail] at hqr ⊢
          rw [← Option.some.inj hqr]
          exact ⟨rfl, rfl⟩
        · rw [if_neg hfail] at hqr ⊢
          rw [← Option.some.inj hqr]
          exact ⟨rfl, rfl⟩
      · rw [if_neg hdir] at hqr ⊢
        rw [← Option.some.inj hqr]
        exact ⟨rfl, rfl⟩

/-- C6 witness at a concrete environment. -/
theorem C6_silent_path_reconciled_witness :
    envSilentStore.hasDrop "/ds" = true ∧
    (pathCount ((_drop_files envSilentStore "/ds" (.many ["/ds/f"]) true
      false "drop").filterMap Event.recOf) "/ds/f" = 1 ∧
    ∀ r ∈ (_drop_files envSilentStore "/ds" (.many ["/ds/f"]) true
        false "drop").filterMap Event.recOf, r.path = "/ds/f" →
      (if envSilentStore.isdir "/ds/f" = true then
        (if ((store_failure_paths envSilentStore "drop" "/ds" ["/ds/f"]
            true).any fun fp => path_startswith fp "/ds/f") = true then
          r.status = Status.impossible ∧
            r.message = dir_fail_msg "/ds" "/ds/f"
        else
          r.status = Status.notneeded ∧
            r.message = noinfo_dir_msg "/ds/f")
      else
        r.status = Status.notneeded ∧
          r.message = noinfo_file_msg)) :=
  ⟨rfl, C6_silent_path_reconciled envSilentStore "/ds" ["/ds/f"] true
    false "drop" "/ds/f" rfl (by decide) (by decide) (by decide)
    (by decide)⟩

/-- C6 is false as stated: a tracked file the store stayed silent about
is reported with the message no annex'ed content, not with the
nothing-to-drop message the claim assigns to files, and the message
no content store for this path is never emitted. -/
theorem C6_counterexample :
    ((_drop_files envSilentStore "/ds" (.many ["/ds/f"]) true false
      "drop").filterMap Event.recOf) =
      [⟨"drop", Status.notneeded, "/ds/f", "no annex'ed content",
        some "file"⟩] ∧
    "no annex'ed content" ≠ "nothing to drop from /ds/f" ∧
    "no annex'ed content" ≠ "no content store for this path" := by
  exact ⟨by decide, by decide, by decide⟩

end DataladDrop
